import Mathlib

/-!
Verification of the single-sphere pinhole-camera renderer in
ECE6360/helloworld/src/main.cpp (with ray.h). Floating-point arithmetic is
modelled over the reals.
-/

/-- Modelled from the spec: vec3.h is referenced by the sources but absent from
the repository; Vector3 is a three-component floating-point value type with
componentwise algebra (spec section 4.1 / 3). -/
structure vec3 where
  x : ℝ
  y : ℝ
  z : ℝ

/-- point3 is an alias for vec3 (as in the reference ray tracer). -/
abbrev point3 := vec3

/-- color is an alias for vec3. -/
abbrev color := vec3

noncomputable instance : Add vec3 :=
  ⟨fun a b => ⟨a.x + b.x, a.y + b.y, a.z + b.z⟩⟩

noncomputable instance : Sub vec3 :=
  ⟨fun a b => ⟨a.x - b.x, a.y - b.y, a.z - b.z⟩⟩

noncomputable instance : Neg vec3 :=
  ⟨fun a => ⟨-a.x, -a.y, -a.z⟩⟩

noncomputable instance : SMul ℝ vec3 :=
  ⟨fun t a => ⟨t * a.x, t * a.y, t * a.z⟩⟩

/-- Scalar division of a vector, as in the reference ray tracer's vec3. -/
noncomputable instance : HDiv vec3 ℝ vec3 :=
  ⟨fun a t => ⟨a.x / t, a.y / t, a.z / t⟩⟩

/-- Modelled from the spec: dot product is the sum of component products
(spec section 4.1). -/
noncomputable def dot (a b : vec3) : ℝ :=
  a.x * b.x + a.y * b.y + a.z * b.z

/-- Modelled from the spec: Euclidean norm. -/
noncomputable def vlength (v : vec3) : ℝ :=
  Real.sqrt (dot v v)

/-- Modelled from the spec: normalization divides by the Euclidean norm
(spec section 4.1); the zero vector maps to zero under real division by zero. -/
noncomputable def unit_vector (v : vec3) : vec3 :=
  v / vlength v

/-- ray.h: an origin plus a direction. -/
structure ray where
  orig : vec3
  dir : vec3

/-- ray.h: origin accessor. -/
def ray.origin (r : ray) : vec3 := r.orig

/-- ray.h: direction accessor. -/
def ray.direction (r : ray) : vec3 := r.dir

/-- ray.h: at(t) returns origin + t * direction. -/
noncomputable def ray.at (r : ray) (t : ℝ) : vec3 :=
  r.orig + t • r.dir

/-- main.cpp line 83: the quadratic coefficient a = dot(v, v). -/
noncomputable def hitA (rt : ray) : ℝ :=
  dot rt.direction rt.direction

/-- main.cpp line 84: the code's b = 2 * dot(v, s - p). -/
noncomputable def hitB (s : point3) (rt : ray) : ℝ :=
  2 * dot rt.direction (s - rt.origin)

/-- main.cpp line 85: c = dot(s - p, s - p) - r * r. -/
noncomputable def hitC (s : point3) (r : ℝ) (rt : ray) : ℝ :=
  dot (s - rt.origin) (s - rt.origin) - r * r

/-- main.cpp line 87: the discriminant h = b * b - 4 * a * c. -/
noncomputable def hitDiscrim (s : point3) (r : ℝ) (rt : ray) : ℝ :=
  hitB s rt * hitB s rt - 4 * hitA rt * hitC s r rt

/-- main.cpp lines 79-95: HitSphere returns -1.0 when the discriminant is
negative and (b - sqrt(h)) / (2 * a) otherwise. -/
noncomputable def HitSphere (s : point3) (r : ℝ) (rt : ray) : ℝ :=
  if hitDiscrim s r rt < 0 then -1.0
  else (hitB s rt - Real.sqrt (hitDiscrim s r rt)) / (2.0 * hitA rt)

/-- The spec's sign convention (section 4.4): b = 2 * dot(d, origin - center). -/
noncomputable def specB (s : point3) (rt : ray) : ℝ :=
  2 * dot rt.direction (rt.origin - s)

/-- The spec's c = dot(origin - center, origin - center) - radius^2. -/
noncomputable def specC (s : point3) (r : ℝ) (rt : ray) : ℝ :=
  dot (rt.origin - s) (rt.origin - s) - r * r

/-- The spec's discriminant h = b^2 - 4ac under its sign convention. -/
noncomputable def specDiscrim (s : point3) (r : ℝ) (rt : ray) : ℝ :=
  specB s rt * specB s rt - 4 * hitA rt * specC s r rt

/-- The spec's near root t = (-b - sqrt(h)) / (2a). -/
noncomputable def specNearRoot (s : point3) (r : ℝ) (rt : ray) : ℝ :=
  (-specB s rt - Real.sqrt (specDiscrim s r rt)) / (2 * hitA rt)

/-- The spec's far root t = (-b + sqrt(h)) / (2a). -/
noncomputable def specFarRoot (s : point3) (r : ℝ) (rt : ray) : ℝ :=
  (-specB s rt + Real.sqrt (specDiscrim s r rt)) / (2 * hitA rt)

/-- main.cpp lines 100-117: RayColor shades a hit (t > 0) with the remapped
unit normal and a miss with the white-to-light-blue vertical gradient.
The code's normal + 1.0 broadcasts the scalar, i.e. adds (1,1,1). -/
noncomputable def RayColor (r : ray) : color :=
  let t := HitSphere ⟨0, 0, -1⟩ 0.5 r
  if t > (0 : ℝ) then
    (0.5 : ℝ) • (unit_vector (r.at t - ⟨0, 0, -1⟩) + ⟨1, 1, 1⟩)
  else
    let unit_direction := unit_vector r.direction
    let a := 0.5 * (unit_direction.y + 1.0)
    (1.0 - a) • (⟨1.0, 1.0, 1.0⟩ : color) + a • (⟨0.5, 0.7, 1.0⟩ : color)

/-- The spec's blend factor a = 0.5 * (unit_direction.y + 1.0) (section 4.5). -/
noncomputable def blendA (r : ray) : ℝ :=
  0.5 * ((unit_vector r.direction).y + 1.0)

/-- The spec's miss color: the lerp (1-a)*white + a*sky_blue (section 4.5). -/
noncomputable def skyGradient (r : ray) : color :=
  (1 - blendA r) • (⟨1, 1, 1⟩ : color) + blendA r • (⟨0.5, 0.7, 1.0⟩ : color)

/-- main.cpp line 41: focal_length = 1.0. -/
noncomputable def focal_length : ℝ := 1.0

/-- main.cpp line 42: viewport_height = 2.0. -/
noncomputable def viewport_height : ℝ := 2.0

/-- main.cpp line 43: viewport_width = 2.0. -/
noncomputable def viewport_width : ℝ := 2.0

/-- main.cpp line 44: camera_center = point3(0, 0, 0). -/
noncomputable def camera_center : point3 := ⟨0, 0, 0⟩

/-- main.cpp line 47: viewport_u = vec3(viewport_width, 0, 0). -/
noncomputable def viewport_u : vec3 := ⟨viewport_width, 0, 0⟩

/-- main.cpp line 48: viewport_v = vec3(0, -viewport_height, 0). -/
noncomputable def viewport_v : vec3 := ⟨0, -viewport_height, 0⟩

/-- main.cpp line 51: the initializer expression viewport_u / resolution, as a
function of the value the resolution global holds when it is evaluated. -/
noncomputable def pixel_delta_u_at (res : ℕ) : vec3 :=
  viewport_u / (res : ℝ)

/-- main.cpp line 52: the initializer expression viewport_v / resolution. -/
noncomputable def pixel_delta_v_at (res : ℕ) : vec3 :=
  viewport_v / (res : ℝ)

/-- main.cpp line 55: viewport_upper_left. -/
noncomputable def viewport_upper_left : point3 :=
  camera_center - viewport_u / (2 : ℝ) - viewport_v / (2 : ℝ) - ⟨0, 0, focal_length⟩

/-- main.cpp line 58: the initializer expression
viewport_upper_left + 0.5 * (pixel_delta_u + pixel_delta_v). -/
noncomputable def pixel00_loc_at (res : ℕ) : point3 :=
  viewport_upper_left + (0.5 : ℝ) • (pixel_delta_u_at res + pixel_delta_v_at res)

/-- The mutable globals DrawSquare reads: the resolution (main.cpp line 36) and
the camera quantities derived from it once at startup (lines 51-58). -/
structure CamState where
  resolution : ℕ
  pixel_delta_u : vec3
  pixel_delta_v : vec3
  pixel00_loc : point3

/-- The state of the globals when the derived quantities are computed at
resolution res: each cached value is its initializer evaluated at res. -/
noncomputable def camStateAt (res : ℕ) : CamState :=
  ⟨res, pixel_delta_u_at res, pixel_delta_v_at res, pixel00_loc_at res⟩

/-- The startup state: main.cpp initializes resolution = 500 (line 36) and
evaluates the derived-quantity initializers once with that value. -/
noncomputable def initState : CamState :=
  camStateAt 500

/-- Assigning a new value to the resolution global (the change the comment on
main.cpp line 36 invites). No statement in the sources re-evaluates the
derived camera quantities, so only the resolution field changes. -/
def setResolution (st : CamState) (r : ℕ) : CamState :=
  { st with resolution := r }

/-- main.cpp lines 122-124: the ray DrawSquare builds for pixel (xi, yi) from
the cached camera globals. -/
noncomputable def squareRay (st : CamState) (xi yi : ℕ) : ray :=
  let pixel_center :=
    st.pixel00_loc + (xi : ℝ) • st.pixel_delta_u + (yi : ℝ) • st.pixel_delta_v
  ⟨camera_center, pixel_center - camera_center⟩

/-- Follows the spec's words (section 4.3): pixel00_loc written out as
camera_center - viewport_u/2 - viewport_v/2 - (0,0,focal_length)
+ 0.5*(pixel_delta_u + pixel_delta_v). -/
noncomputable def specPixel00 (res : ℕ) : point3 :=
  camera_center - viewport_u / (2 : ℝ) - viewport_v / (2 : ℝ) - ⟨0, 0, focal_length⟩
    + (0.5 : ℝ) • (viewport_u / (res : ℝ) + viewport_v / (res : ℝ))

/-- Follows the spec's words (section 4.3): the camera ray for pixel (x, y),
origin camera_center, direction pixel_center - camera_center with
pixel_center = pixel00_loc + x*pixel_delta_u + y*pixel_delta_v. -/
noncomputable def specRay (res : ℕ) (x y : ℕ) : ray :=
  ⟨camera_center,
    specPixel00 res + (x : ℝ) • (viewport_u / (res : ℝ))
      + (y : ℝ) • (viewport_v / (res : ℝ)) - camera_center⟩

/-- One store through the output image pointer: memory is a total map from
indices to floats, with no bounds information, as with the raw float*. -/
def writeAt (mem : ℕ → ℝ) (i : ℕ) (v : ℝ) : ℕ → ℝ :=
  fun j => if j = i then v else mem j

/-- main.cpp lines 122-132: the body of DrawSquare's inner loop for pixel
(xi, yi): shade the camera ray and store the four channels at
idx = yi * resolution * 4 + xi * 4. -/
noncomputable def writePixel (st : CamState) (xi yi : ℕ) (mem : ℕ → ℝ) : ℕ → ℝ :=
  let pixel := RayColor (squareRay st xi yi)
  let idx := yi * st.resolution * 4 + xi * 4
  writeAt (writeAt (writeAt (writeAt mem idx pixel.x) (idx + 1) pixel.y)
    (idx + 2) pixel.z) (idx + 3) 1.0

/-- The first n iterations of DrawSquare's inner loop over xi for row yi. -/
noncomputable def renderRowAux (st : CamState) (yi : ℕ) (mem : ℕ → ℝ) : ℕ → (ℕ → ℝ)
  | 0 => mem
  | n + 1 => writePixel st n yi (renderRowAux st yi mem n)

/-- main.cpp line 121: the full inner loop xi = 0 .. resolution - 1. -/
noncomputable def renderRow (st : CamState) (yi : ℕ) (mem : ℕ → ℝ) : ℕ → ℝ :=
  renderRowAux st yi mem st.resolution

/-- The first n iterations of DrawSquare's outer loop over yi. -/
noncomputable def DrawSquareAux (st : CamState) (mem : ℕ → ℝ) : ℕ → (ℕ → ℝ)
  | 0 => mem
  | n + 1 => renderRow st n (DrawSquareAux st mem n)

/-- main.cpp lines 119-135: DrawSquare runs the outer loop
yi = 0 .. resolution - 1 over the output image memory. -/
noncomputable def DrawSquare (st : CamState) (mem : ℕ → ℝ) : ℕ → ℝ :=
  DrawSquareAux st mem st.resolution

/-- The first n iterations of DrawSphere's inner loop: the body is empty. -/
def sphereRowAux (mem : ℕ → ℝ) : ℕ → (ℕ → ℝ)
  | 0 => mem
  | n + 1 => sphereRowAux mem n

/-- The first n iterations of DrawSphere's outer loop. -/
def DrawSphereAux (res : ℕ) (mem : ℕ → ℝ) : ℕ → (ℕ → ℝ)
  | 0 => mem
  | n + 1 => sphereRowAux (DrawSphereAux res mem n) res

/-- main.cpp lines 137-143: DrawSphere's doubly nested loop with empty body. -/
def DrawSphere (res : ℕ) (mem : ℕ → ℝ) : ℕ → ℝ :=
  DrawSphereAux res mem res

@[simp] theorem vec3_add_def (a b : vec3) :
    a + b = ⟨a.x + b.x, a.y + b.y, a.z + b.z⟩ := rfl

@[simp] theorem vec3_sub_def (a b : vec3) :
    a - b = ⟨a.x - b.x, a.y - b.y, a.z - b.z⟩ := rfl

@[simp] theorem vec3_smul_def (t : ℝ) (a : vec3) :
    t • a = ⟨t * a.x, t * a.y, t * a.z⟩ := rfl

@[simp] theorem vec3_div_def (a : vec3) (t : ℝ) :
    a / t = ⟨a.x / t, a.y / t, a.z / t⟩ := rfl

theorem dot_self_nonneg (v : vec3) : 0 ≤ dot v v := by
  unfold dot; nlinarith [sq_nonneg v.x, sq_nonneg v.y, sq_nonneg v.z]

theorem dot_self_eq_zero_iff (v : vec3) : dot v v = 0 ↔ v = ⟨0, 0, 0⟩ := by
  constructor
  · intro h
    unfold dot at h
    have hx : v.x = 0 := by nlinarith [sq_nonneg v.x, sq_nonneg v.y, sq_nonneg v.z]
    have hy : v.y = 0 := by nlinarith [sq_nonneg v.x, sq_nonneg v.y, sq_nonneg v.z]
    have hz : v.z = 0 := by nlinarith [sq_nonneg v.x, sq_nonneg v.y, sq_nonneg v.z]
    cases v
    simp only [vec3.mk.injEq]
    exact ⟨hx, hy, hz⟩
  · intro h
    subst h
    unfold dot
    norm_num

theorem dot_self_pos (v : vec3) (h : v ≠ ⟨0, 0, 0⟩) : 0 < dot v v := by
  rcases lt_or_eq_of_le (dot_self_nonneg v) with hlt | heq
  · exact hlt
  · exact absurd ((dot_self_eq_zero_iff v).mp heq.symm) h

theorem specB_eq_neg_hitB (s : point3) (rt : ray) : specB s rt = -hitB s rt := by
  unfold specB hitB dot
  simp
  ring

theorem specC_eq_hitC (s : point3) (r : ℝ) (rt : ray) : specC s r rt = hitC s r rt := by
  unfold specC hitC dot
  simp
  ring

theorem specDiscrim_eq_hitDiscrim (s : point3) (r : ℝ) (rt : ray) :
    specDiscrim s r rt = hitDiscrim s r rt := by
  unfold specDiscrim hitDiscrim
  rw [specB_eq_neg_hitB, specC_eq_hitC]
  ring

theorem at_sub_dot (s : point3) (r : ℝ) (rt : ray) (t : ℝ) :
    dot (rt.at t - s) (rt.at t - s) =
      hitA rt * t ^ 2 - hitB s rt * t + hitC s r rt + r * r := by
  unfold ray.at hitA hitB hitC dot ray.direction ray.origin
  simp
  ring

theorem HitSphere_of_discrim_nonneg (s : point3) (r : ℝ) (rt : ray)
    (hh : 0 ≤ hitDiscrim s r rt) :
    HitSphere s r rt =
      (hitB s rt - Real.sqrt (hitDiscrim s r rt)) / (2 * hitA rt) := by
  unfold HitSphere
  rw [if_neg (not_lt.mpr hh)]
  norm_num

/-- Claim C1: for a ray with nonzero direction and a sphere with non-negative
discriminant, HitSphere returns the spec's near root (-b - sqrt(h)) / (2a)
under the spec's sign convention; that value is a root of
|r.at(t) - center|^2 = radius^2, and it is the smaller of the two roots.
The code's flipped-sign form (b - sqrt(h)) / (2a) therefore equals the
spec's near root. -/
theorem C1_near_root (s : point3) (r : ℝ) (rt : ray)
    (hd : rt.direction ≠ ⟨0, 0, 0⟩) (hh : 0 ≤ hitDiscrim s r rt) :
    HitSphere s r rt = specNearRoot s r rt ∧
    dot (rt.at (HitSphere s r rt) - s) (rt.at (HitSphere s r rt) - s) = r * r ∧
    specNearRoot s r rt ≤ specFarRoot s r rt := by
  have ha : 0 < hitA rt := dot_self_pos _ hd
  have ha' : hitA rt ≠ 0 := ne_of_gt ha
  have heq : HitSphere s r rt = specNearRoot s r rt := by
    rw [HitSphere_of_discrim_nonneg s r rt hh]
    unfold specNearRoot
    rw [specB_eq_neg_hitB, specDiscrim_eq_hitDiscrim]
    ring_nf
  refine ⟨heq, ?_, ?_⟩
  · rw [at_sub_dot s r rt (HitSphere s r rt)]
    rw [HitSphere_of_discrim_nonneg s r rt hh]
    have hs : Real.sqrt (hitDiscrim s r rt) ^ 2 = hitDiscrim s r rt :=
      Real.sq_sqrt hh
    have hexp : hitDiscrim s r rt =
        hitB s rt * hitB s rt - 4 * hitA rt * hitC s r rt := rfl
    field_simp
    nlinarith [hs, hexp]
  · unfold specNearRoot specFarRoot
    have h2a : 0 < 2 * hitA rt := by linarith
    rw [div_le_div_iff_of_pos_right h2a]
    have := Real.sqrt_nonneg (specDiscrim s r rt)
    linarith

/-- Witness for C1 at the spec's canonical scenario (section 8): the ray down
the optical axis from the origin hitting the sphere at (0,0,-1) of radius
0.5. -/
theorem C1_near_root_witness :
    ((⟨⟨0, 0, 0⟩, ⟨0, 0, -1⟩⟩ : ray).direction ≠ ⟨0, 0, 0⟩ ∧
      0 ≤ hitDiscrim ⟨0, 0, -1⟩ 0.5 ⟨⟨0, 0, 0⟩, ⟨0, 0, -1⟩⟩) ∧
    (HitSphere ⟨0, 0, -1⟩ 0.5 ⟨⟨0, 0, 0⟩, ⟨0, 0, -1⟩⟩ =
        specNearRoot ⟨0, 0, -1⟩ 0.5 ⟨⟨0, 0, 0⟩, ⟨0, 0, -1⟩⟩ ∧
      dot ((⟨⟨0, 0, 0⟩, ⟨0, 0, -1⟩⟩ : ray).at
            (HitSphere ⟨0, 0, -1⟩ 0.5 ⟨⟨0, 0, 0⟩, ⟨0, 0, -1⟩⟩) - ⟨0, 0, -1⟩)
          ((⟨⟨0, 0, 0⟩, ⟨0, 0, -1⟩⟩ : ray).at
            (HitSphere ⟨0, 0, -1⟩ 0.5 ⟨⟨0, 0, 0⟩, ⟨0, 0, -1⟩⟩) - ⟨0, 0, -1⟩) =
        0.5 * 0.5 ∧
      specNearRoot ⟨0, 0, -1⟩ 0.5 ⟨⟨0, 0, 0⟩, ⟨0, 0, -1⟩⟩ ≤
        specFarRoot ⟨0, 0, -1⟩ 0.5 ⟨⟨0, 0, 0⟩, ⟨0, 0, -1⟩⟩) :=
  ⟨⟨by norm_num [ray.direction, vec3.mk.injEq],
    by norm_num [hitDiscrim, hitA, hitB, hitC, dot, ray.direction, ray.origin]⟩,
   C1_near_root ⟨0, 0, -1⟩ 0.5 ⟨⟨0, 0, 0⟩, ⟨0, 0, -1⟩⟩
     (by norm_num [ray.direction, vec3.mk.injEq])
     (by norm_num [hitDiscrim, hitA, hitB, hitC, dot, ray.direction, ray.origin])⟩

/-- Claim C5 counterexample: the ray from the origin along +z against the
sphere centered at (0,0,-0.5) with radius 0.5 has discriminant h = 1 ≥ 0,
yet HitSphere returns -1.0 (the near root happens to be exactly -1), so
the return value -1.0 does not imply h < 0. -/
theorem C5_counterexample :
    0 ≤ hitDiscrim ⟨0, 0, -0.5⟩ 0.5 ⟨⟨0, 0, 0⟩, ⟨0, 0, 1⟩⟩ ∧
    HitSphere ⟨0, 0, -0.5⟩ 0.5 ⟨⟨0, 0, 0⟩, ⟨0, 0, 1⟩⟩ = -1 := by
  have hd : hitDiscrim ⟨0, 0, -0.5⟩ 0.5 ⟨⟨0, 0, 0⟩, ⟨0, 0, 1⟩⟩ = 1 := by
    norm_num [hitDiscrim, hitA, hitB, hitC, dot, ray.direction, ray.origin]
  refine ⟨by rw [hd]; norm_num, ?_⟩
  rw [HitSphere_of_discrim_nonneg _ _ _ (by rw [hd]; norm_num), hd, Real.sqrt_one]
  norm_num [hitB, hitA, dot, ray.direction, ray.origin]

/-- Claim C5 (amended): HitSphere returns -1.0 exactly when the discriminant
is negative or the near root (b - sqrt(h)) / (2a) itself equals -1; and a
tangent ray (h = 0) reports the single root b / (2a), not the sentinel,
unless that root coincides with -1. -/
theorem C5_sentinel_amended (s : point3) (r : ℝ) (rt : ray) :
    (HitSphere s r rt = -1 ↔
      (hitDiscrim s r rt < 0 ∨
        (hitB s rt - Real.sqrt (hitDiscrim s r rt)) / (2 * hitA rt) = -1)) ∧
    (hitDiscrim s r rt = 0 → HitSphere s r rt = hitB s rt / (2 * hitA rt)) := by
  constructor
  · by_cases hlt : hitDiscrim s r rt < 0
    · unfold HitSphere
      rw [if_pos hlt]
      norm_num [hlt]
    · rw [HitSphere_of_discrim_nonneg s r rt (not_lt.mp hlt)]
      simp [hlt]
  · intro h0
    rw [HitSphere_of_discrim_nonneg s r rt (le_of_eq h0.symm), h0, Real.sqrt_zero]
    ring

/-- Witness for C5 (amended) at a tangent ray: the ray from the origin along
+z grazes the unit sphere centered at (1,0,0); h = 0 and the reported value
is the single root b / (2a) = 0, not the sentinel. -/
theorem C5_sentinel_amended_witness :
    hitDiscrim ⟨1, 0, 0⟩ 1 ⟨⟨0, 0, 0⟩, ⟨0, 0, 1⟩⟩ = 0 ∧
    HitSphere ⟨1, 0, 0⟩ 1 ⟨⟨0, 0, 0⟩, ⟨0, 0, 1⟩⟩ =
      hitB ⟨1, 0, 0⟩ ⟨⟨0, 0, 0⟩, ⟨0, 0, 1⟩⟩ / (2 * hitA ⟨⟨0, 0, 0⟩, ⟨0, 0, 1⟩⟩) :=
  ⟨by norm_num [hitDiscrim, hitA, hitB, hitC, dot, ray.direction, ray.origin],
   (C5_sentinel_amended ⟨1, 0, 0⟩ 1 ⟨⟨0, 0, 0⟩, ⟨0, 0, 1⟩⟩).2
     (by norm_num [hitDiscrim, hitA, hitB, hitC, dot, ray.direction, ray.origin])⟩

/-- Claim C7 (code evaluation at the failing input): for the zero-direction
ray, the quadratic coefficient a = dot(v,v) is 0, the h < 0 guard does not
fire (h = 0), and HitSphere still returns a plain number — the division
(b - sqrt(h)) / (2a) is taken with denominator zero (NaN in C++ arithmetic;
0 under the real-division convention used here). No DegenerateRay error
exists anywhere in the sources. -/
theorem C7_zero_direction_no_error :
    hitA ⟨⟨0, 0, 0⟩, ⟨0, 0, 0⟩⟩ = 0 ∧
    ¬ hitDiscrim ⟨0, 0, -1⟩ 0.5 ⟨⟨0, 0, 0⟩, ⟨0, 0, 0⟩⟩ < 0 ∧
    HitSphere ⟨0, 0, -1⟩ 0.5 ⟨⟨0, 0, 0⟩, ⟨0, 0, 0⟩⟩ = 0 := by
  have ha : hitA ⟨⟨0, 0, 0⟩, ⟨0, 0, 0⟩⟩ = 0 := by
    norm_num [hitA, dot, ray.direction]
  have hd : hitDiscrim ⟨0, 0, -1⟩ 0.5 ⟨⟨0, 0, 0⟩, ⟨0, 0, 0⟩⟩ = 0 := by
    norm_num [hitDiscrim, hitA, hitB, hitC, dot, ray.direction, ray.origin]
  refine ⟨ha, by rw [hd]; norm_num, ?_⟩
  rw [HitSphere_of_discrim_nonneg _ _ _ (le_of_eq hd.symm), hd, Real.sqrt_zero, ha]
  norm_num

theorem RayColor_hit (r : ray) (ht : 0 < HitSphere ⟨0, 0, -1⟩ 0.5 r) :
    RayColor r = (0.5 : ℝ) •
      (unit_vector (r.at (HitSphere ⟨0, 0, -1⟩ 0.5 r) - ⟨0, 0, -1⟩) + ⟨1, 1, 1⟩) := by
  simp only [RayColor]
  rw [if_pos ht]

theorem RayColor_miss (r : ray) (ht : HitSphere ⟨0, 0, -1⟩ 0.5 r ≤ 0) :
    RayColor r = skyGradient r := by
  simp only [RayColor]
  rw [if_neg (not_lt.mpr ht)]
  unfold skyGradient blendA
  simp only [vec3_smul_def, vec3_add_def, vec3.mk.injEq]
  norm_num

/-- Claim C3: when the intersection result t is strictly positive, RayColor
returns 0.5 * (normal + (1,1,1)) with normal = normalize(r.at(t) - center);
when t ≤ 0 (including a non-negative discriminant with non-positive root),
RayColor returns the sky gradient, i.e. the ray is treated as a miss. -/
theorem C3_shading (r : ray) :
    (0 < HitSphere ⟨0, 0, -1⟩ 0.5 r →
      RayColor r = (0.5 : ℝ) •
        (unit_vector (r.at (HitSphere ⟨0, 0, -1⟩ 0.5 r) - ⟨0, 0, -1⟩) + ⟨1, 1, 1⟩)) ∧
    (HitSphere ⟨0, 0, -1⟩ 0.5 r ≤ 0 → RayColor r = skyGradient r) :=
  ⟨RayColor_hit r, RayColor_miss r⟩

/-- Witness for C3 at the optical-axis ray, for which t = 0.5 > 0. -/
theorem C3_shading_witness :
    0 < HitSphere ⟨0, 0, -1⟩ 0.5 ⟨⟨0, 0, 0⟩, ⟨0, 0, -1⟩⟩ ∧
    RayColor ⟨⟨0, 0, 0⟩, ⟨0, 0, -1⟩⟩ = (0.5 : ℝ) •
      (unit_vector ((⟨⟨0, 0, 0⟩, ⟨0, 0, -1⟩⟩ : ray).at
          (HitSphere ⟨0, 0, -1⟩ 0.5 ⟨⟨0, 0, 0⟩, ⟨0, 0, -1⟩⟩) - ⟨0, 0, -1⟩) +
        ⟨1, 1, 1⟩) := by
  have hval : HitSphere ⟨0, 0, -1⟩ 0.5 ⟨⟨0, 0, 0⟩, ⟨0, 0, -1⟩⟩ = 0.5 := by
    rw [HitSphere_of_discrim_nonneg _ _ _
      (by norm_num [hitDiscrim, hitA, hitB, hitC, dot, ray.direction, ray.origin])]
    norm_num [hitDiscrim, hitA, hitB, hitC, dot, ray.direction, ray.origin,
      Real.sqrt_one]
  have hpos : 0 < HitSphere ⟨0, 0, -1⟩ 0.5 ⟨⟨0, 0, 0⟩, ⟨0, 0, -1⟩⟩ := by
    rw [hval]; norm_num
  exact ⟨hpos, (C3_shading ⟨⟨0, 0, 0⟩, ⟨0, 0, -1⟩⟩).1 hpos⟩

/-- Claim C4: a ray whose intersection result is non-positive (in particular
any miss) is shaded with the lerp (1-a)*(1,1,1) + a*(0.5,0.7,1.0), where
a = 0.5 * (normalize(r.direction).y + 1.0). -/
theorem C4_miss_gradient (r : ray) (h : HitSphere ⟨0, 0, -1⟩ 0.5 r ≤ 0) :
    RayColor r =
      (1 - blendA r) • (⟨1, 1, 1⟩ : color) + blendA r • (⟨0.5, 0.7, 1.0⟩ : color) :=
  RayColor_miss r h

/-- Witness for C4 at the straight-up ray (0,1,0), which misses the sphere
(discriminant -3 < 0, so HitSphere returns -1 ≤ 0). -/
theorem C4_miss_gradient_witness :
    HitSphere ⟨0, 0, -1⟩ 0.5 ⟨⟨0, 0, 0⟩, ⟨0, 1, 0⟩⟩ ≤ 0 ∧
    RayColor ⟨⟨0, 0, 0⟩, ⟨0, 1, 0⟩⟩ =
      (1 - blendA ⟨⟨0, 0, 0⟩, ⟨0, 1, 0⟩⟩) • (⟨1, 1, 1⟩ : color) +
        blendA ⟨⟨0, 0, 0⟩, ⟨0, 1, 0⟩⟩ • (⟨0.5, 0.7, 1.0⟩ : color) := by
  have hneg : HitSphere ⟨0, 0, -1⟩ 0.5 ⟨⟨0, 0, 0⟩, ⟨0, 1, 0⟩⟩ = -1.0 := by
    unfold HitSphere
    rw [if_pos (by norm_num [hitDiscrim, hitA, hitB, hitC, dot, ray.direction,
      ray.origin])]
  have hle : HitSphere ⟨0, 0, -1⟩ 0.5 ⟨⟨0, 0, 0⟩, ⟨0, 1, 0⟩⟩ ≤ 0 := by
    rw [hneg]; norm_num
  exact ⟨hle, C4_miss_gradient ⟨⟨0, 0, 0⟩, ⟨0, 1, 0⟩⟩ hle⟩

/-- Claim C2: for every pixel (x, y) in [0, resolution)^2, with the derived
camera quantities computed at that resolution, DrawSquare builds exactly the
ray the spec prescribes: origin camera_center and direction
pixel_center - camera_center with pixel_center = pixel00_loc
+ x*pixel_delta_u + y*pixel_delta_v and pixel00_loc written out as in
spec section 4.3. -/
theorem C2_camera_ray (res x y : ℕ) (hx : x < res) (hy : y < res) :
    squareRay (camStateAt res) x y = specRay res x y := by
  unfold squareRay camStateAt specRay specPixel00 pixel00_loc_at
    viewport_upper_left pixel_delta_u_at pixel_delta_v_at
  rfl

/-- Witness for C2 at the spec's boundary configuration resolution = 4,
pixel (0, 0). -/
theorem C2_camera_ray_witness :
    ((0 : ℕ) < 4 ∧ (0 : ℕ) < 4) ∧
    squareRay (camStateAt 4) 0 0 = specRay 4 0 0 :=
  ⟨⟨by norm_num, by norm_num⟩, C2_camera_ray 4 0 0 (by norm_num) (by norm_num)⟩

/-- Claim C6 (code evaluation at the failing input): after assigning
resolution := 250, the cached pixel_delta_u the next DrawSquare call reads
is still the one computed from the startup resolution 500, and it differs
from the value a recomputation at 250 would produce. -/
theorem C6_stale_camera_after_resolution_change :
    (setResolution initState 250).resolution = 250 ∧
    (setResolution initState 250).pixel_delta_u = pixel_delta_u_at 500 ∧
    (setResolution initState 250).pixel_delta_u ≠ pixel_delta_u_at 250 := by
  refine ⟨rfl, rfl, ?_⟩
  unfold setResolution initState camStateAt pixel_delta_u_at viewport_u
    viewport_width
  simp only [vec3_div_def, vec3.mk.injEq]
  norm_num

/-- Claim C8 (code evaluation at the failing input): DrawSquare consults no
buffer length at all — the output image is a raw pointer — so with
resolution 1 it stores the alpha value 1.0 at index 3 of whatever memory the
pointer designates, even when the claimed check (length = resolution^2 * 4)
could not have passed; no BufferSizeMismatch error exists in the sources. -/
theorem C8_no_size_check :
    DrawSquare (camStateAt 1) (fun _ => 0) 3 = 1 ∧
    DrawSquare (camStateAt 1) (fun _ => 0) 3 ≠ (fun _ => (0 : ℝ)) 3 := by
  have h : DrawSquare (camStateAt 1) (fun _ => 0) 3 = 1 := by
    show DrawSquareAux (camStateAt 1) (fun _ => 0) (camStateAt 1).resolution 3 = 1
    show writePixel (camStateAt 1) 0 0
      (DrawSquareAux (camStateAt 1) (fun _ => 0) 0) 3 = 1
    simp only [writePixel, writeAt]
    norm_num [camStateAt]
  exact ⟨h, by rw [h]; norm_num⟩

theorem sphereRowAux_id (mem : ℕ → ℝ) (n : ℕ) : sphereRowAux mem n = mem := by
  induction n with
  | zero => rfl
  | succ n ih => exact ih

theorem DrawSphereAux_id (res : ℕ) (mem : ℕ → ℝ) (n : ℕ) :
    DrawSphereAux res mem n = mem := by
  induction n with
  | zero => rfl
  | succ n ih =>
    show sphereRowAux (DrawSphereAux res mem n) res = mem
    rw [sphereRowAux_id, ih]

/-- Claim C10: DrawSphere's doubly nested loop has an empty body, so for
every resolution and memory state it leaves the output image memory (and
everything else) completely unchanged — it is a no-op. -/
theorem C10_DrawSphere_noop (res : ℕ) (mem : ℕ → ℝ) : DrawSphere res mem = mem :=
  DrawSphereAux_id res mem res

theorem writePixel_outside (st : CamState) (xi yi : ℕ) (mem : ℕ → ℝ) (j : ℕ)
    (hj : j < yi * st.resolution * 4 + xi * 4 ∨
      yi * st.resolution * 4 + xi * 4 + 3 < j) :
    writePixel st xi yi mem j = mem j := by
  simp only [writePixel, writeAt]
  rw [if_neg (by omega), if_neg (by omega), if_neg (by omega), if_neg (by omega)]

theorem writePixel_values (st : CamState) (xi yi : ℕ) (mem : ℕ → ℝ) :
    writePixel st xi yi mem (yi * st.resolution * 4 + xi * 4) =
      (RayColor (squareRay st xi yi)).x ∧
    writePixel st xi yi mem (yi * st.resolution * 4 + xi * 4 + 1) =
      (RayColor (squareRay st xi yi)).y ∧
    writePixel st xi yi mem (yi * st.resolution * 4 + xi * 4 + 2) =
      (RayColor (squareRay st xi yi)).z ∧
    writePixel st xi yi mem (yi * st.resolution * 4 + xi * 4 + 3) = 1 := by
  refine ⟨?_, ?_, ?_, ?_⟩ <;>
    · simp only [writePixel, writeAt]
      split_ifs <;> first | rfl | omega | norm_num

theorem renderRowAux_outside (st : CamState) (yi : ℕ) (mem : ℕ → ℝ) (n j : ℕ)
    (hj : j < yi * st.resolution * 4 ∨ yi * st.resolution * 4 + 4 * n ≤ j) :
    renderRowAux st yi mem n j = mem j := by
  induction n with
  | zero => rfl
  | succ n ih =>
    show writePixel st n yi (renderRowAux st yi mem n) j = mem j
    rw [writePixel_outside st n yi _ j (by omega)]
    exact ih (by omega)

theorem renderRowAux_value (st : CamState) (yi : ℕ) (mem : ℕ → ℝ) (n x : ℕ)
    (hx : x < n) :
    renderRowAux st yi mem n (yi * st.resolution * 4 + x * 4) =
      (RayColor (squareRay st x yi)).x ∧
    renderRowAux st yi mem n (yi * st.resolution * 4 + x * 4 + 1) =
      (RayColor (squareRay st x yi)).y ∧
    renderRowAux st yi mem n (yi * st.resolution * 4 + x * 4 + 2) =
      (RayColor (squareRay st x yi)).z ∧
    renderRowAux st yi mem n (yi * st.resolution * 4 + x * 4 + 3) = 1 := by
  induction n with
  | zero => omega
  | succ n ih =>
    rcases Nat.lt_succ_iff_lt_or_eq.mp hx with hlt | heq
    · obtain ⟨i1, i2, i3, i4⟩ := ih hlt
      refine ⟨?_, ?_, ?_, ?_⟩
      · show writePixel st n yi (renderRowAux st yi mem n) _ = _
        rw [writePixel_outside st n yi _ _ (by omega)]
        exact i1
      · show writePixel st n yi (renderRowAux st yi mem n) _ = _
        rw [writePixel_outside st n yi _ _ (by omega)]
        exact i2
      · show writePixel st n yi (renderRowAux st yi mem n) _ = _
        rw [writePixel_outside st n yi _ _ (by omega)]
        exact i3
      · show writePixel st n yi (renderRowAux st yi mem n) _ = _
        rw [writePixel_outside st n yi _ _ (by omega)]
        exact i4
    · subst heq
      exact writePixel_values st x yi (renderRowAux st yi mem x)

theorem DrawSquareAux_value (st : CamState) (mem : ℕ → ℝ) (n x y : ℕ)
    (hy : y < n) (hx : x < st.resolution) :
    DrawSquareAux st mem n (y * st.resolution * 4 + x * 4) =
      (RayColor (squareRay st x y)).x ∧
    DrawSquareAux st mem n (y * st.resolution * 4 + x * 4 + 1) =
      (RayColor (squareRay st x y)).y ∧
    DrawSquareAux st mem n (y * st.resolution * 4 + x * 4 + 2) =
      (RayColor (squareRay st x y)).z ∧
    DrawSquareAux st mem n (y * st.resolution * 4 + x * 4 + 3) = 1 := by
  induction n with
  | zero => omega
  | succ n ih =>
    rcases Nat.lt_succ_iff_lt_or_eq.mp hy with hlt | heq
    · obtain ⟨i1, i2, i3, i4⟩ := ih hlt
      have hkey : y * st.resolution * 4 + x * 4 + 3 < n * st.resolution * 4 := by
        have h1 : x * 4 + 3 < st.resolution * 4 := by omega
        have h2 : (y + 1) * (st.resolution * 4) ≤ n * (st.resolution * 4) :=
          Nat.mul_le_mul_right _ (by omega)
        calc y * st.resolution * 4 + x * 4 + 3
            = y * st.resolution * 4 + (x * 4 + 3) := by omega
          _ < y * st.resolution * 4 + st.resolution * 4 :=
              Nat.add_lt_add_left h1 _
          _ = (y + 1) * (st.resolution * 4) := by ring
          _ ≤ n * (st.resolution * 4) := h2
          _ = n * st.resolution * 4 := by ring
      have e0 : renderRow st n (DrawSquareAux st mem n)
          (y * st.resolution * 4 + x * 4) =
          DrawSquareAux st mem n (y * st.resolution * 4 + x * 4) := by
        unfold renderRow
        apply renderRowAux_outside
        left
        linarith [hkey]
      have e1 : renderRow st n (DrawSquareAux st mem n)
          (y * st.resolution * 4 + x * 4 + 1) =
          DrawSquareAux st mem n (y * st.resolution * 4 + x * 4 + 1) := by
        unfold renderRow
        apply renderRowAux_outside
        left
        linarith [hkey]
      have e2 : renderRow st n (DrawSquareAux st mem n)
          (y * st.resolution * 4 + x * 4 + 2) =
          DrawSquareAux st mem n (y * st.resolution * 4 + x * 4 + 2) := by
        unfold renderRow
        apply renderRowAux_outside
        left
        linarith [hkey]
      have e3 : renderRow st n (DrawSquareAux st mem n)
          (y * st.resolution * 4 + x * 4 + 3) =
          DrawSquareAux st mem n (y * st.resolution * 4 + x * 4 + 3) := by
        unfold renderRow
        apply renderRowAux_outside
        left
        linarith [hkey]
      refine ⟨?_, ?_, ?_, ?_⟩
      · show renderRow st n (DrawSquareAux st mem n) _ = _
        rw [e0]
        exact i1
      · show renderRow st n (DrawSquareAux st mem n) _ = _
        rw [e1]
        exact i2
      · show renderRow st n (DrawSquareAux st mem n) _ = _
        rw [e2]
        exact i3
      · show renderRow st n (DrawSquareAux st mem n) _ = _
        rw [e3]
        exact i4
    · subst heq
      exact renderRowAux_value st y (DrawSquareAux st mem y) st.resolution x hx

theorem unit_vector_comp_bound (v : vec3) :
    |(unit_vector v).x| ≤ 1 ∧ |(unit_vector v).y| ≤ 1 ∧ |(unit_vector v).z| ≤ 1 := by
  rcases eq_or_lt_of_le (dot_self_nonneg v) with h0 | hpos
  · have hv : v = ⟨0, 0, 0⟩ := (dot_self_eq_zero_iff v).mp h0.symm
    subst hv
    unfold unit_vector vlength
    simp [vec3_div_def]
  · have hs : 0 < Real.sqrt (dot v v) := Real.sqrt_pos.mpr hpos
    have core : ∀ c : ℝ, c * c ≤ dot v v → |c / Real.sqrt (dot v v)| ≤ 1 := by
      intro c hc
      rw [abs_div, abs_of_pos hs, div_le_one hs]
      rw [Real.le_sqrt (abs_nonneg c) (dot_self_nonneg v)]
      rw [sq_abs]
      nlinarith [hc]
    refine ⟨?_, ?_, ?_⟩
    · have := core v.x (by unfold dot; nlinarith [sq_nonneg v.y, sq_nonneg v.z])
      simpa [unit_vector, vlength, vec3_div_def] using this
    · have := core v.y (by unfold dot; nlinarith [sq_nonneg v.x, sq_nonneg v.z])
      simpa [unit_vector, vlength, vec3_div_def] using this
    · have := core v.z (by unfold dot; nlinarith [sq_nonneg v.x, sq_nonneg v.y])
      simpa [unit_vector, vlength, vec3_div_def] using this

theorem RayColor_bounds (r : ray) :
    (0 ≤ (RayColor r).x ∧ (RayColor r).x ≤ 1) ∧
    (0 ≤ (RayColor r).y ∧ (RayColor r).y ≤ 1) ∧
    (0 ≤ (RayColor r).z ∧ (RayColor r).z ≤ 1) := by
  simp only [RayColor]
  split_ifs with ht
  · obtain ⟨h1, h2, h3⟩ :=
      unit_vector_comp_bound (r.at (HitSphere ⟨0, 0, -1⟩ 0.5 r) - ⟨0, 0, -1⟩)
    rw [abs_le] at h1 h2 h3
    refine ⟨⟨?_, ?_⟩, ⟨?_, ?_⟩, ⟨?_, ?_⟩⟩
    · show (0 : ℝ) ≤ 0.5 *
        ((unit_vector (r.at (HitSphere ⟨0, 0, -1⟩ 0.5 r) - ⟨0, 0, -1⟩)).x + 1)
      linarith [h1.1]
    · show (0.5 : ℝ) *
        ((unit_vector (r.at (HitSphere ⟨0, 0, -1⟩ 0.5 r) - ⟨0, 0, -1⟩)).x + 1) ≤ 1
      linarith [h1.2]
    · show (0 : ℝ) ≤ 0.5 *
        ((unit_vector (r.at (HitSphere ⟨0, 0, -1⟩ 0.5 r) - ⟨0, 0, -1⟩)).y + 1)
      linarith [h2.1]
    · show (0.5 : ℝ) *
        ((unit_vector (r.at (HitSphere ⟨0, 0, -1⟩ 0.5 r) - ⟨0, 0, -1⟩)).y + 1) ≤ 1
      linarith [h2.2]
    · show (0 : ℝ) ≤ 0.5 *
        ((unit_vector (r.at (HitSphere ⟨0, 0, -1⟩ 0.5 r) - ⟨0, 0, -1⟩)).z + 1)
      linarith [h3.1]
    · show (0.5 : ℝ) *
        ((unit_vector (r.at (HitSphere ⟨0, 0, -1⟩ 0.5 r) - ⟨0, 0, -1⟩)).z + 1) ≤ 1
      linarith [h3.2]
  · obtain ⟨h1, h2, h3⟩ := unit_vector_comp_bound r.direction
    rw [abs_le] at h2
    refine ⟨⟨?_, ?_⟩, ⟨?_, ?_⟩, ⟨?_, ?_⟩⟩
    · show (0 : ℝ) ≤ (1.0 - 0.5 * ((unit_vector r.direction).y + 1.0)) * 1.0 +
        0.5 * ((unit_vector r.direction).y + 1.0) * 0.5
      nlinarith [h2.1, h2.2]
    · show (1.0 - 0.5 * ((unit_vector r.direction).y + 1.0)) * 1.0 +
        0.5 * ((unit_vector r.direction).y + 1.0) * 0.5 ≤ 1
      nlinarith [h2.1, h2.2]
    · show (0 : ℝ) ≤ (1.0 - 0.5 * ((unit_vector r.direction).y + 1.0)) * 1.0 +
        0.5 * ((unit_vector r.direction).y + 1.0) * 0.7
      nlinarith [h2.1, h2.2]
    · show (1.0 - 0.5 * ((unit_vector r.direction).y + 1.0)) * 1.0 +
        0.5 * ((unit_vector r.direction).y + 1.0) * 0.7 ≤ 1
      nlinarith [h2.1, h2.2]
    · show (0 : ℝ) ≤ (1.0 - 0.5 * ((unit_vector r.direction).y + 1.0)) * 1.0 +
        0.5 * ((unit_vector r.direction).y + 1.0) * 1.0
      nlinarith [h2.1, h2.2]
    · show (1.0 - 0.5 * ((unit_vector r.direction).y + 1.0)) * 1.0 +
        0.5 * ((unit_vector r.direction).y + 1.0) * 1.0 ≤ 1
      nlinarith [h2.1, h2.2]

/-- Claim C9: for every pixel (x, y) in [0, resolution)^2 a render pass writes
the four channel values at offset (y * resolution + x) * 4: the R, G, B
components of the shaded color — each lying in [0, 1] — followed by the
alpha channel, which is exactly 1.0. -/
theorem C9_pixel_write (st : CamState) (mem : ℕ → ℝ) (x y : ℕ)
    (hx : x < st.resolution) (hy : y < st.resolution) :
    DrawSquare st mem ((y * st.resolution + x) * 4) =
      (RayColor (squareRay st x y)).x ∧
    DrawSquare st mem ((y * st.resolution + x) * 4 + 1) =
      (RayColor (squareRay st x y)).y ∧
    DrawSquare st mem ((y * st.resolution + x) * 4 + 2) =
      (RayColor (squareRay st x y)).z ∧
    DrawSquare st mem ((y * st.resolution + x) * 4 + 3) = 1 ∧
    (0 ≤ (RayColor (squareRay st x y)).x ∧ (RayColor (squareRay st x y)).x ≤ 1) ∧
    (0 ≤ (RayColor (squareRay st x y)).y ∧ (RayColor (squareRay st x y)).y ≤ 1) ∧
    (0 ≤ (RayColor (squareRay st x y)).z ∧ (RayColor (squareRay st x y)).z ≤ 1) := by
  have hidx : (y * st.resolution + x) * 4 = y * st.resolution * 4 + x * 4 := by
    ring
  obtain ⟨v1, v2, v3, v4⟩ := DrawSquareAux_value st mem st.resolution x y hy hx
  obtain ⟨b1, b2, b3⟩ := RayColor_bounds (squareRay st x y)
  rw [hidx]
  exact ⟨v1, v2, v3, v4, b1, b2, b3⟩

/-- Witness for C9 at resolution 1, pixel (0, 0), over the zero memory. -/
theorem C9_pixel_write_witness :
    ((0 : ℕ) < (camStateAt 1).resolution ∧ (0 : ℕ) < (camStateAt 1).resolution) ∧
    (DrawSquare (camStateAt 1) (fun _ => 0) ((0 * (camStateAt 1).resolution + 0) * 4) =
        (RayColor (squareRay (camStateAt 1) 0 0)).x ∧
      DrawSquare (camStateAt 1) (fun _ => 0) ((0 * (camStateAt 1).resolution + 0) * 4 + 1) =
        (RayColor (squareRay (camStateAt 1) 0 0)).y ∧
      DrawSquare (camStateAt 1) (fun _ => 0) ((0 * (camStateAt 1).resolution + 0) * 4 + 2) =
        (RayColor (squareRay (camStateAt 1) 0 0)).z ∧
      DrawSquare (camStateAt 1) (fun _ => 0) ((0 * (camStateAt 1).resolution + 0) * 4 + 3) = 1 ∧
      (0 ≤ (RayColor (squareRay (camStateAt 1) 0 0)).x ∧
        (RayColor (squareRay (camStateAt 1) 0 0)).x ≤ 1) ∧
      (0 ≤ (RayColor (squareRay (camStateAt 1) 0 0)).y ∧
        (RayColor (squareRay (camStateAt 1) 0 0)).y ≤ 1) ∧
      (0 ≤ (RayColor (squareRay (camStateAt 1) 0 0)).z ∧
        (RayColor (squareRay (camStateAt 1) 0 0)).z ≤ 1)) :=
  ⟨⟨by norm_num [camStateAt], by norm_num [camStateAt]⟩,
   C9_pixel_write (camStateAt 1) (fun _ => 0) 0 0
     (by norm_num [camStateAt]) (by norm_num [camStateAt])⟩
